import Mathlib

/-!
# ParticleTest: the particle store, emitter, integrator and upload of `main.cpp`

A shallow embedding of `ParticleSystem` from `src/main.cpp`.

Modelling conventions:

* `float` values are rationals (`ℚ`). In `update`, `addParticles` and `trackFPS` sums,
  products and comparisons are the mathematical ones, without rounding, infinities or
  NaN. Where a property depends on rounding (the overshoot property, C9) the integration
  step is also given as the machine computes it, with every product and every sum
  rounded to the nearest binary32 value (`roundF32`, `updateF32`).
* `int count` is an unbounded `Int`; `size_t` and `UINT` quantities are `Nat`, with an
  explicit `% 2 ^ 32` wherever the source stores a value in a 32-bit `UINT`.
* `std::mt19937` together with `std::uniform_real_distribution<float>` is a library
  component: the generator state is a type parameter `σ`, and one draw from the
  distribution over `[a, b]` is a parameter `dist a b : σ → ℚ × σ` returning the drawn
  value and the advanced generator state.
* The Direct3D device context is write-only for the code under study: `draw` is modelled
  by the sequence of calls it issues.
-/

namespace ParticleTest

/-! ## Constants (`main.cpp` lines 22-24) -/

def WINDOW_WIDTH : Int := 800

def WINDOW_HEIGHT : Int := 600

def MAX_PARTICLES : Int := 5000000

/-! ## Data model (`main.cpp` lines 26-45) -/

/-- Two floats `x`, `y` (DirectXMath `XMFLOAT2`). -/
structure XMFLOAT2 where
  x : ℚ
  y : ℚ
deriving DecidableEq

/-- Four floats `x`, `y`, `z`, `w` (DirectXMath `XMFLOAT4`); for a colour these are
red, green, blue and alpha. -/
structure XMFLOAT4 where
  x : ℚ
  y : ℚ
  z : ℚ
  w : ℚ
deriving DecidableEq

/-- The record `struct Particle`. -/
structure Particle where
  position : XMFLOAT2
  velocity : XMFLOAT2
  color : XMFLOAT4
deriving DecidableEq

/-- The simulation state held by `class ParticleSystem`: the vector `particles`, the
generator `rng` and the scalar `highestFPS`. -/
structure ParticleSystem (σ : Type) where
  particles : List Particle
  rng : σ
  highestFPS : ℚ

/-- One draw from a `std::uniform_real_distribution<float>(a, b)` applied to the
generator: the value drawn and the generator state afterwards. -/
abbrev Dist (σ : Type) := ℚ → ℚ → σ → ℚ × σ

/-- The constructor `ParticleSystem(HWND)`: an empty vector, a generator seeded with
`seed`, and `highestFPS = 0.0f`. -/
def ParticleSystem.init {σ : Type} (seed : σ) : ParticleSystem σ :=
  { particles := [], rng := seed, highestFPS := 0 }

/-! ## `update` (`main.cpp` lines 54-62) -/

/-- The body of the loop of `update`, on one particle: the four statements in source
order, each acting on the result of the previous one. -/
def updateParticle (dt : ℚ) (p : Particle) : Particle :=
  let p1 : Particle := { p with position := { p.position with x := p.position.x + p.velocity.x * dt } }
  let p2 : Particle := { p1 with position := { p1.position with y := p1.position.y + p1.velocity.y * dt } }
  let p3 : Particle :=
    if p2.position.x < 0 ∨ p2.position.x > WINDOW_WIDTH then
      { p2 with velocity := { p2.velocity with x := p2.velocity.x * (-1) } }
    else p2
  let p4 : Particle :=
    if p3.position.y < 0 ∨ p3.position.y > WINDOW_HEIGHT then
      { p3 with velocity := { p3.velocity with y := p3.velocity.y * (-1) } }
    else p3
  p4

/-- The loop `for (auto& p : particles)` of `update`: every element is rewritten in
place, front to back. -/
def updateLoop (dt : ℚ) : List Particle → List Particle
  | [] => []
  | p :: ps => updateParticle dt p :: updateLoop dt ps

/-- The method `update(float dt)`. -/
def update {σ : Type} (dt : ℚ) (s : ParticleSystem σ) : ParticleSystem σ :=
  { s with particles := updateLoop dt s.particles }

/-! ## `update` with binary32 rounding

The same statements as above, with the result of every `*` and every `+` passed through a
rounding function `fl`. With `fl = roundF32` this is the arithmetic of `float` on a target
that evaluates each operation in IEEE 754 binary32, round to nearest, ties to even. -/

/-- The nearest integer to `r`, the even one of the two when `r` lies halfway. -/
def roundTiesEven (r : ℚ) : ℤ :=
  let f : ℤ := ⌊r⌋
  if r - f < 1 / 2 then f
  else if r - f > 1 / 2 then f + 1
  else if f % 2 = 0 then f else f + 1

/-- The spacing of binary32 values at magnitude `q ≥ 0`: `2 ^ (e - 23)` where `2 ^ e` is the
largest power of two not above `q`, with `e` no lower than `-126` (below `2 ^ (-126)` the
values are subnormal and spaced `2 ^ (-149)` apart). -/
def ulpF32 (q : ℚ) : ℚ := (2 : ℚ) ^ (max (Int.log 2 q) (-126) - 23)

/-- Rounding of a magnitude `q ≥ 0` to the nearest multiple of the spacing at `q`. -/
def roundAbsF32 (q : ℚ) : ℚ := ulpF32 q * roundTiesEven (q / ulpF32 q)

/-- Rounding to the nearest binary32 value, ties to even; binary32 is sign and magnitude,
so a negative number is rounded through its magnitude. A result of magnitude `2 ^ 128` or
more stands for an overflow to infinity, which `ℚ` cannot hold: see `IsF32`. -/
def roundF32 (q : ℚ) : ℚ := if q < 0 then -roundAbsF32 (-q) else roundAbsF32 q

/-- The rational `q` is a finite binary32 value: rounding leaves it unchanged and its
magnitude is below the overflow bound `2 ^ 128`. -/
def IsF32 (q : ℚ) : Prop := roundF32 q = q ∧ |q| < 2 ^ 128

instance (q : ℚ) : Decidable (IsF32 q) := by
  unfold IsF32; infer_instance

/-- The body of the loop of `update` (`main.cpp` lines 56-60) with every product and sum
rounded by `fl`: `x += vx * dt` is `fl (x + fl (vx * dt))`, and `vx *= -1` is
`fl (vx * (-1))`. The bounds 800 and 600 are exact as floats. -/
def updateParticleWith (fl : ℚ → ℚ) (dt : ℚ) (p : Particle) : Particle :=
  let p1 : Particle :=
    { p with position := { p.position with x := fl (p.position.x + fl (p.velocity.x * dt)) } }
  let p2 : Particle :=
    { p1 with position := { p1.position with y := fl (p1.position.y + fl (p1.velocity.y * dt)) } }
  let p3 : Particle :=
    if p2.position.x < 0 ∨ p2.position.x > WINDOW_WIDTH then
      { p2 with velocity := { p2.velocity with x := fl (p2.velocity.x * (-1)) } }
    else p2
  let p4 : Particle :=
    if p3.position.y < 0 ∨ p3.position.y > WINDOW_HEIGHT then
      { p3 with velocity := { p3.velocity with y := fl (p3.velocity.y * (-1)) } }
    else p3
  p4

/-- The loop of `update` with rounding `fl`. -/
def updateLoopWith (fl : ℚ → ℚ) (dt : ℚ) : List Particle → List Particle
  | [] => []
  | p :: ps => updateParticleWith fl dt p :: updateLoopWith fl dt ps

/-- The loop body of `update` in binary32 arithmetic. -/
def updateParticleF32 (dt : ℚ) (p : Particle) : Particle :=
  updateParticleWith roundF32 dt p

/-- The method `update(float dt)` in binary32 arithmetic. -/
def updateF32 {σ : Type} (dt : ℚ) (s : ParticleSystem σ) : ParticleSystem σ :=
  { s with particles := updateLoopWith roundF32 dt s.particles }

/-! ## `addParticles` (`main.cpp` lines 64-76) -/

/-- The first four statements of the loop body of `addParticles`: a particle built from
seven draws on the shared generator, with alpha `1.0f`; returned with the generator state
after the draws. The draws are threaded in the order written (C++ leaves the order of the
draws inside one constructor call open; which drawn value lands in which field of a pair
does not matter to the properties below). -/
def drawParticle {σ : Type} (dist : Dist σ) (rng : σ) : Particle × σ :=
  let (px, r1) := dist 0 WINDOW_WIDTH rng
  let (py, r2) := dist 0 WINDOW_WIDTH r1
  let (vx, r3) := dist (-100) 100 r2
  let (vy, r4) := dist (-100) 100 r3
  let (cr, r5) := dist 0 1 r4
  let (cg, r6) := dist 0 1 r5
  let (cb, r7) := dist 0 1 r6
  ({ position := ⟨px, py⟩, velocity := ⟨vx, vy⟩, color := ⟨cr, cg, cb, 1⟩ }, r7)

/-- The whole loop body of `addParticles`: draw a particle, then
`particles.push_back(p)`. -/
def emitParticle {σ : Type} (dist : Dist σ) (s : ParticleSystem σ) : ParticleSystem σ :=
  let (p, r) := drawParticle dist s.rng
  { s with particles := s.particles ++ [p], rng := r }

/-- The loop `for (int i = 0; i < count && particles.size() < MAX_PARTICLES; ++i)`,
entered with `remaining = count - i` iterations still allowed by the test `i < count`. -/
def addLoop {σ : Type} (dist : Dist σ) : Nat → ParticleSystem σ → ParticleSystem σ
  | 0, s => s
  | remaining + 1, s =>
    if (s.particles.length : Int) < MAX_PARTICLES then
      addLoop dist remaining (emitParticle dist s)
    else s

/-- The method `addParticles(int count)`: with `i` starting at 0 the test `i < count`
allows `count` iterations when `count` is positive and none otherwise. -/
def addParticles {σ : Type} (dist : Dist σ) (count : Int) (s : ParticleSystem σ) :
    ParticleSystem σ :=
  addLoop dist count.toNat s

/-! ## `trackFPS` (`main.cpp` lines 105-112) -/

/-- The method `trackFPS(float fps)`: the returned value and the state afterwards. -/
def trackFPS {σ : Type} (fps : ℚ) (s : ParticleSystem σ) : ℚ × ParticleSystem σ :=
  let s1 : ParticleSystem σ :=
    if (s.particles.length : Int) ≥ MAX_PARTICLES then
      if fps > s.highestFPS then { s with highestFPS := fps } else s
    else s
  (s1.highestFPS, s1)

/-! ## Sequences of calls -/

/-- A call of one of the three state-changing public methods. -/
inductive Call where
  | addParticles (count : Int)
  | update (dt : ℚ)
  | trackFPS (fps : ℚ)

/-- The state after one call. -/
def Call.apply {σ : Type} (dist : Dist σ) (s : ParticleSystem σ) : Call → ParticleSystem σ
  | .addParticles count => ParticleTest.addParticles dist count s
  | .update dt => ParticleTest.update dt s
  | .trackFPS fps => (ParticleTest.trackFPS fps s).2

/-- The state after a finite sequence of calls, executed first to last. -/
def runCalls {σ : Type} (dist : Dist σ) (s : ParticleSystem σ) (calls : List Call) :
    ParticleSystem σ :=
  calls.foldl (Call.apply dist) s

/-! ## `draw` and `createVertexBuffer` (`main.cpp` lines 78-101 and 185-193) -/

/-- Modelled from the spec: `sizeof(Particle)`. The field types `XMFLOAT2` and `XMFLOAT4`
are declared in DirectXMath, outside the repository; the specification fixes the record at
32 bytes (8 + 8 + 16, no padding). -/
def sizeofParticle : Nat := 8 + 8 + 16

/-- The value a 32-bit `UINT` holds after being assigned `n`. -/
def toUINT (n : Nat) : Nat := n % 2 ^ 32

/-- The calls `draw` issues on the device context and the swap chain, with the arguments
that depend on the particle store. -/
inductive GpuCall where
  | ClearRenderTargetView (r g b a : ℚ)
  | Map
  | memcpy (src : List Particle) (bytes : Nat)
  | Unmap
  | IASetVertexBuffers (stride offset : Nat)
  | IASetPrimitiveTopologyPointList
  | IASetInputLayout
  | VSSetShader
  | PSSetShader
  | Draw (vertexCount startVertexLocation : Nat)
  | Present (syncInterval flags : Nat)
deriving DecidableEq

/-- The method `draw()`, as the list of calls it makes, in order. The byte count of the
`memcpy` is the `size_t` product `sizeof(Particle) * particles.size()`, which cannot wrap
because a vector never holds more than `max_size()` elements; the stride and the vertex
count are stored in `UINT`s. -/
def draw {σ : Type} (s : ParticleSystem σ) : List GpuCall :=
  [GpuCall.ClearRenderTargetView 0 0 0 1]
    ++ (if ¬ s.particles.isEmpty then
          [ GpuCall.Map,
            GpuCall.memcpy s.particles (sizeofParticle * s.particles.length),
            GpuCall.Unmap,
            GpuCall.IASetVertexBuffers (toUINT sizeofParticle) 0,
            GpuCall.IASetPrimitiveTopologyPointList,
            GpuCall.IASetInputLayout,
            GpuCall.VSSetShader,
            GpuCall.PSSetShader,
            GpuCall.Draw (toUINT s.particles.length) 0 ]
        else [])
    ++ [GpuCall.Present 1 0]

/-- The fields of `D3D11_BUFFER_DESC` that `createVertexBuffer` computes. -/
structure BufferDesc where
  ByteWidth : Nat
deriving DecidableEq

/-- The method `createVertexBuffer()`: `ByteWidth` is a `UINT` assigned the product
`sizeof(Particle) * MAX_PARTICLES`. -/
def createVertexBuffer : BufferDesc :=
  { ByteWidth := toUINT (sizeofParticle * MAX_PARTICLES.toNat) }

/-- The number of bytes written into the mapped vertex buffer by a list of calls. -/
def uploadedBytes : List GpuCall → Nat
  | [] => 0
  | GpuCall.memcpy _ bytes :: cs => bytes + uploadedBytes cs
  | _ :: cs => uploadedBytes cs

/-! ## The integration rule as the specification words it -/

/-- The integration rule in the words of the specification: the new position is
position plus velocity times `dt` on both axes, never clamped; a velocity component is
negated when the new position on its axis is below 0 or above 800 (x) or 600 (y), and
kept otherwise; the colour is kept. -/
def integrationRule (dt : ℚ) (p : Particle) : Particle :=
  let x1 : ℚ := p.position.x + p.velocity.x * dt
  let y1 : ℚ := p.position.y + p.velocity.y * dt
  { position := ⟨x1, y1⟩,
    velocity := ⟨if x1 < 0 ∨ x1 > 800 then -p.velocity.x else p.velocity.x,
                 if y1 < 0 ∨ y1 > 600 then -p.velocity.y else p.velocity.y⟩,
    color := p.color }

/-- What `update(0)` does to one particle `p`, giving `q`: position and colour are kept;
a velocity component is kept when the position on its axis is inside the window and
negated when it is outside. -/
def ZeroStep (p q : Particle) : Prop :=
  q.position = p.position ∧ q.color = p.color
    ∧ (0 ≤ p.position.x ∧ p.position.x ≤ 800 → q.velocity.x = p.velocity.x)
    ∧ (0 ≤ p.position.y ∧ p.position.y ≤ 600 → q.velocity.y = p.velocity.y)
    ∧ (p.position.x < 0 ∨ p.position.x > 800 → q.velocity.x = -p.velocity.x)
    ∧ (p.position.y < 0 ∨ p.position.y > 600 → q.velocity.y = -p.velocity.y)

/-- The position lies in the window: `0 ≤ x ≤ 800` and `0 ≤ y ≤ 600`. -/
def InWindow (p : Particle) : Prop :=
  0 ≤ p.position.x ∧ p.position.x ≤ 800 ∧ 0 ≤ p.position.y ∧ p.position.y ≤ 600

/-- The ranges of a freshly emitted particle: colour channels in `[0, 1]`, alpha 1,
velocity components in `[-100, 100]`, both position coordinates in `[0, 800]`. -/
def EmittedRanges (p : Particle) : Prop :=
  (0 ≤ p.color.x ∧ p.color.x ≤ 1) ∧ (0 ≤ p.color.y ∧ p.color.y ≤ 1)
    ∧ (0 ≤ p.color.z ∧ p.color.z ≤ 1) ∧ p.color.w = 1
    ∧ (-100 ≤ p.velocity.x ∧ p.velocity.x ≤ 100)
    ∧ (-100 ≤ p.velocity.y ∧ p.velocity.y ≤ 100)
    ∧ (0 ≤ p.position.x ∧ p.position.x ≤ 800)
    ∧ (0 ≤ p.position.y ∧ p.position.y ≤ 800)

instance (p q : Particle) : Decidable (ZeroStep p q) := by
  unfold ZeroStep; infer_instance

instance (p : Particle) : Decidable (InWindow p) := by
  unfold InWindow; infer_instance

instance (p : Particle) : Decidable (EmittedRanges p) := by
  unfold EmittedRanges; infer_instance

/-! ## A concrete generator for examples

A linear congruential generator standing in for `std::mt19937`; a draw over `[a, b]`
returns one of the 1001 evenly spaced points of the interval. -/

/-- One step of the generator. -/
def lcgNext (st : Nat) : Nat := (1103515245 * st + 12345) % 2147483648

/-- A draw over `[a, b]` with the generator above. -/
def lcgDist : Dist Nat := fun a b st =>
  (a + (b - a) * ((lcgNext st % 1001 : Nat) : ℚ) / 1000, lcgNext st)

/-- A particle at `x = 795` moving right at 100 units per second. -/
def nearRightEdge : Particle :=
  { position := ⟨795, 300⟩, velocity := ⟨100, 0⟩, color := ⟨1, 1, 1, 1⟩ }

/-- A particle beyond the right edge, as left by one overshooting step. -/
def pastRightEdge : Particle :=
  { position := ⟨805, 300⟩, velocity := ⟨-100, 0⟩, color := ⟨1, 1, 1, 1⟩ }

/-- A particle near the lower right corner moving towards it on both axes. -/
def nearCorner : Particle :=
  { position := ⟨795, 595⟩, velocity := ⟨100, 100⟩, color := ⟨1, 1, 1, 1⟩ }

/-- The binary32 value nearest to one tenth, the value of the literal `0.1f`. -/
def tenthF32 : ℚ := 13421773 / 134217728

/-- A particle on the right edge, `x = 800`, with `vx = 56 + 5 * 2 ^ (-18)`; all its fields
are binary32 values. -/
def onRightEdge : Particle :=
  { position := ⟨800, 300⟩, velocity := ⟨56 + 5 / 262144, 0⟩, color := ⟨1, 1, 1, 1⟩ }

/-- A store holding the single particle `p`. -/
def singleStore (p : Particle) : ParticleSystem Nat :=
  { particles := [p], rng := 0, highestFPS := 0 }

/-- A store holding `n` copies of one particle. -/
def filledStore (n : Nat) : ParticleSystem Nat :=
  { particles := List.replicate n nearRightEdge, rng := 0, highestFPS := 0 }

/-! ## Lemmas on the emitter -/

theorem emitParticle_particles {σ : Type} (dist : Dist σ) (s : ParticleSystem σ) :
    (emitParticle dist s).particles = s.particles ++ [(drawParticle dist s.rng).1] := by
  rfl

theorem emitParticle_length {σ : Type} (dist : Dist σ) (s : ParticleSystem σ) :
    (emitParticle dist s).particles.length = s.particles.length + 1 := by
  rw [emitParticle_particles]; simp

theorem emitParticle_highestFPS {σ : Type} (dist : Dist σ) (s : ParticleSystem σ) :
    (emitParticle dist s).highestFPS = s.highestFPS := by
  rfl

theorem addLoop_highestFPS {σ : Type} (dist : Dist σ) (k : Nat) :
    ∀ s : ParticleSystem σ, (addLoop dist k s).highestFPS = s.highestFPS := by
  induction k with
  | zero => intro s; rfl
  | succ k ih =>
    intro s
    simp only [addLoop]
    split
    · rw [ih, emitParticle_highestFPS]
    · rfl

theorem addLoop_at_cap {σ : Type} (dist : Dist σ) (k : Nat) (s : ParticleSystem σ)
    (h : MAX_PARTICLES ≤ (s.particles.length : Int)) : addLoop dist k s = s := by
  cases k with
  | zero => rfl
  | succ k =>
    simp only [addLoop]
    rw [if_neg (by omega)]

theorem addLoop_length {σ : Type} (dist : Dist σ) (k : Nat) :
    ∀ s : ParticleSystem σ, (s.particles.length : Int) ≤ MAX_PARTICLES →
      ((addLoop dist k s).particles.length : Int)
        = min ((s.particles.length : Int) + k) MAX_PARTICLES := by
  induction k with
  | zero =>
    intro s h
    simp [addLoop, h]
  | succ k ih =>
    intro s h
    simp only [addLoop]
    split
    · rename_i hlt
      have hle : ((emitParticle dist s).particles.length : Int) ≤ MAX_PARTICLES := by
        rw [emitParticle_length]; push_cast; omega
      rw [ih _ hle, emitParticle_length]
      push_cast
      congr 1
      ring
    · rename_i hge
      have : (s.particles.length : Int) = MAX_PARTICLES := by omega
      rw [this]
      push_cast
      rw [min_eq_right (by omega)]

theorem addLoop_appended {σ : Type} (dist : Dist σ) (P : Particle → Prop)
    (hP : ∀ rng : σ, P (drawParticle dist rng).1) (k : Nat) :
    ∀ s : ParticleSystem σ, ∃ added : List Particle,
      (addLoop dist k s).particles = s.particles ++ added ∧ ∀ p ∈ added, P p := by
  induction k with
  | zero => intro s; exact ⟨[], by simp [addLoop], by simp⟩
  | succ k ih =>
    intro s
    simp only [addLoop]
    split
    · obtain ⟨added, hadd, hall⟩ := ih (emitParticle dist s)
      rw [emitParticle_particles] at hadd
      refine ⟨(drawParticle dist s.rng).1 :: added, ?_, ?_⟩
      · rw [hadd]; simp
      · intro p hp
        rcases List.mem_cons.mp hp with h | h
        · rw [h]; exact hP s.rng
        · exact hall p h
    · exact ⟨[], by simp, by simp⟩

theorem updateLoop_eq_map (dt : ℚ) (ps : List Particle) :
    updateLoop dt ps = ps.map (updateParticle dt) := by
  induction ps with
  | nil => rfl
  | cons p ps ih => simp [updateLoop, ih]

theorem updateLoop_length (dt : ℚ) (ps : List Particle) :
    (updateLoop dt ps).length = ps.length := by
  rw [updateLoop_eq_map]; simp

theorem filledStore_length (n : Nat) : (filledStore n).particles.length = n := by
  simp [filledStore]

theorem update_length {σ : Type} (dt : ℚ) (s : ParticleSystem σ) :
    (update dt s).particles.length = s.particles.length := by
  simp [update, updateLoop_length]

theorem trackFPS_particles {σ : Type} (fps : ℚ) (s : ParticleSystem σ) :
    (trackFPS fps s).2.particles = s.particles := by
  simp only [trackFPS]
  split
  · split <;> rfl
  · rfl

theorem addParticles_length_le {σ : Type} (dist : Dist σ) (count : Int) (s : ParticleSystem σ)
    (h : (s.particles.length : Int) ≤ MAX_PARTICLES) :
    ((addParticles dist count s).particles.length : Int) ≤ MAX_PARTICLES := by
  unfold addParticles
  rw [addLoop_length dist _ s h]
  exact min_le_right _ _

theorem Call.apply_length_le {σ : Type} (dist : Dist σ) (c : Call) (s : ParticleSystem σ)
    (h : (s.particles.length : Int) ≤ MAX_PARTICLES) :
    ((c.apply dist s).particles.length : Int) ≤ MAX_PARTICLES := by
  cases c with
  | addParticles count => exact addParticles_length_le dist count s h
  | update dt => simpa [Call.apply, update_length] using h
  | trackFPS fps => simpa [Call.apply, trackFPS_particles] using h

theorem runCalls_length_le {σ : Type} (dist : Dist σ) (calls : List Call) :
    ∀ s : ParticleSystem σ, (s.particles.length : Int) ≤ MAX_PARTICLES →
      ((runCalls dist s calls).particles.length : Int) ≤ MAX_PARTICLES := by
  induction calls with
  | nil => intro s h; simpa [runCalls] using h
  | cons c cs ih =>
    intro s h
    have := ih (c.apply dist s) (Call.apply_length_le dist c s h)
    simpa [runCalls] using this

/-! ## C1: the cap invariant -/

/-- C1. Starting from the empty store built by the constructor, after every finite
sequence of `addParticles`, `update` and `trackFPS` calls, with any arguments, the store
holds at most `MAX_PARTICLES` = 5,000,000 particles. -/
theorem cap_invariant {σ : Type} (dist : Dist σ) (seed : σ) (calls : List Call) :
    ((runCalls dist (ParticleSystem.init seed) calls).particles.length : Int) ≤ MAX_PARTICLES
      ∧ MAX_PARTICLES = 5000000 := by
  refine ⟨runCalls_length_le dist calls _ ?_, rfl⟩
  simp [ParticleSystem.init, MAX_PARTICLES]

/-! ## C2: emission saturation -/

/-- C2. From a store of length `n ≤ MAX_PARTICLES`, `addParticles(count)` leaves a store
of length exactly `min (n + max count 0) MAX_PARTICLES`; so from
`n = MAX_PARTICLES - 50,000` a call with `count = 100,000` ends at exactly
`MAX_PARTICLES`, and from `n = MAX_PARTICLES` the length does not change. -/
theorem addParticles_saturates {σ : Type} (dist : Dist σ) (count : Int) (s : ParticleSystem σ)
    (h : (s.particles.length : Int) ≤ MAX_PARTICLES) :
    ((addParticles dist count s).particles.length : Int)
        = min ((s.particles.length : Int) + max count 0) MAX_PARTICLES
      ∧ ((s.particles.length : Int) = MAX_PARTICLES - 50000 →
          ((addParticles dist 100000 s).particles.length : Int) = MAX_PARTICLES)
      ∧ ((s.particles.length : Int) = MAX_PARTICLES →
          (addParticles dist count s).particles.length = s.particles.length) := by
  have hgen : ∀ c : Int, ((addParticles dist c s).particles.length : Int)
      = min ((s.particles.length : Int) + max c 0) MAX_PARTICLES := by
    intro c
    unfold addParticles
    rw [addLoop_length dist _ s h, Int.toNat_eq_max]
  refine ⟨hgen count, ?_, ?_⟩
  · intro hn
    rw [hgen, hn]
    simp [MAX_PARTICLES]
  · intro hn
    have := hgen count
    rw [hn] at this
    have h0 : (0 : Int) ≤ max count 0 := le_max_right _ _
    rw [min_eq_right (by omega)] at this
    omega

/-- The scenario of C2 at a concrete store: 4,950,000 particles, then
`addParticles(100000)`. -/
theorem addParticles_saturates_witness :
    ((filledStore 4950000).particles.length : Int) ≤ MAX_PARTICLES
      ∧ ((addParticles lcgDist 100000 (filledStore 4950000)).particles.length : Int)
          = MAX_PARTICLES := by
  have hlen : ((filledStore 4950000).particles.length : Int) = 4950000 := by
    rw [filledStore_length]; rfl
  have hle : ((filledStore 4950000).particles.length : Int) ≤ MAX_PARTICLES := by
    rw [hlen]; simp [MAX_PARTICLES]
  refine ⟨hle, ?_⟩
  exact (addParticles_saturates lcgDist 100000 (filledStore 4950000) hle).2.1
    (by rw [hlen]; simp [MAX_PARTICLES])

/-! ## C5: saturation gating -/

/-- C5. While the store holds fewer than `MAX_PARTICLES` particles, `trackFPS(fps)`
leaves `highestFPS` (and the rest of the state) unchanged and returns that unchanged
value, whatever `fps` is. -/
theorem trackFPS_below_cap {σ : Type} (fps : ℚ) (s : ParticleSystem σ)
    (h : (s.particles.length : Int) < MAX_PARTICLES) :
    (trackFPS fps s).2.highestFPS = s.highestFPS
      ∧ (trackFPS fps s).1 = s.highestFPS
      ∧ (trackFPS fps s).2 = s := by
  have hn : ¬ (s.particles.length : Int) ≥ MAX_PARTICLES := by omega
  have heq : trackFPS fps s = (s.highestFPS, s) := by
    simp only [trackFPS, if_neg hn]
  rw [heq]
  exact ⟨rfl, rfl, rfl⟩

/-- C5 at a concrete state: three particles, best rate 0, `trackFPS(1000000)`. -/
theorem trackFPS_below_cap_witness :
    ((filledStore 3).particles.length : Int) < MAX_PARTICLES
      ∧ (trackFPS 1000000 (filledStore 3)).2.highestFPS = 0
      ∧ (trackFPS 1000000 (filledStore 3)).1 = 0 := by
  have hlt : ((filledStore 3).particles.length : Int) < MAX_PARTICLES := by
    rw [filledStore_length]; decide
  have h := trackFPS_below_cap 1000000 (filledStore 3) hlt
  exact ⟨hlt, h.1, h.2.1⟩

/-! ## C6: the best rate only increases -/

/-- C6. `highestFPS` starts at 0; `trackFPS(fps)` never lowers it; at or above the cap
the new value is exactly `max old fps`, below the cap it is the old value, and in both
cases it is the value returned; `update` and `addParticles` leave it unchanged. -/
theorem highestFPS_monotone {σ : Type} (dist : Dist σ) (seed : σ) (s : ParticleSystem σ)
    (fps dt : ℚ) (count : Int) :
    (ParticleSystem.init seed).highestFPS = 0
      ∧ s.highestFPS ≤ (trackFPS fps s).2.highestFPS
      ∧ (trackFPS fps s).2.highestFPS
          = (if (s.particles.length : Int) ≥ MAX_PARTICLES then max s.highestFPS fps
             else s.highestFPS)
      ∧ (trackFPS fps s).1 = (trackFPS fps s).2.highestFPS
      ∧ (update dt s).highestFPS = s.highestFPS
      ∧ (addParticles dist count s).highestFPS = s.highestFPS := by
  refine ⟨rfl, ?_, ?_, rfl, rfl, addLoop_highestFPS dist _ s⟩
  · simp only [trackFPS]
    split
    · split
      · rename_i hgt; exact le_of_lt hgt
      · exact le_refl _
    · exact le_refl _
  · simp only [trackFPS]
    split
    · split
      · rename_i hgt; exact (max_eq_right (le_of_lt hgt)).symm
      · rename_i hgt; exact (max_eq_left (not_lt.mp hgt)).symm
    · rfl

/-! ## C7: the store is append-only -/

/-- C7. The store before `addParticles(count)` is an initial segment of the store after
it: the call only appends. When the store already holds `MAX_PARTICLES` particles (or
more) the call changes nothing: neither the store, nor the generator, nor
`highestFPS`. -/
theorem addParticles_appendOnly {σ : Type} (dist : Dist σ) (count : Int) (s : ParticleSystem σ) :
    (∃ added : List Particle, (addParticles dist count s).particles = s.particles ++ added)
      ∧ (MAX_PARTICLES ≤ (s.particles.length : Int) → addParticles dist count s = s) := by
  constructor
  · obtain ⟨added, hadd, _⟩ :=
      addLoop_appended dist (fun _ => True) (fun _ => trivial) count.toNat s
    exact ⟨added, hadd⟩
  · intro h
    exact addLoop_at_cap dist _ s h

/-- C7 at a concrete store that is exactly full. -/
theorem addParticles_appendOnly_witness :
    MAX_PARTICLES ≤ ((filledStore 5000000).particles.length : Int)
      ∧ addParticles lcgDist 100000 (filledStore 5000000) = filledStore 5000000 := by
  have hle : MAX_PARTICLES ≤ ((filledStore 5000000).particles.length : Int) := by
    rw [filledStore_length]; decide
  exact ⟨hle, (addParticles_appendOnly lcgDist 100000 (filledStore 5000000)).2 hle⟩

/-! ## C4: the integration rule -/

theorem updateParticle_eq_rule (dt : ℚ) (p : Particle) :
    updateParticle dt p = integrationRule dt p := by
  simp only [updateParticle, integrationRule, WINDOW_WIDTH, WINDOW_HEIGHT]
  push_cast
  split_ifs <;> simp_all

/-- C4. `update(dt)` rewrites the store particle by particle, keeping length and order:
each particle becomes the one given by the integration rule (position plus velocity times
`dt`, unclamped; a velocity component negated exactly when the new position on its axis
is below 0 or above the window bound; colour kept). At `x = 795`, `vx = 100`,
`dt = 1/10` this gives `x = 805` and `vx = -100`. -/
theorem update_integration_rule {σ : Type} (dt : ℚ) (s : ParticleSystem σ) :
    (update dt s).particles = s.particles.map (integrationRule dt)
      ∧ (update dt s).particles.length = s.particles.length
      ∧ (update (1 / 10) (filledStore 1)).particles
          = [{ position := ⟨805, 300⟩, velocity := ⟨-100, 0⟩, color := ⟨1, 1, 1, 1⟩ }] := by
  refine ⟨?_, update_length dt s, ?_⟩
  · simp only [update, updateLoop_eq_map]
    exact List.map_congr_left (fun p _ => updateParticle_eq_rule dt p)
  · norm_num [update, updateLoop, updateParticle, filledStore, nearRightEdge, WINDOW_WIDTH,
      WINDOW_HEIGHT]

/-! ## C3: `update(0)` -/

theorem updateParticle_zero (p : Particle) : ZeroStep p (updateParticle 0 p) := by
  rw [updateParticle_eq_rule]
  simp only [ZeroStep, integrationRule, mul_zero, add_zero]
  refine ⟨trivial, trivial, ?_, ?_, ?_, ?_⟩
  · rintro ⟨h0, h1⟩
    have hx : ¬ (p.position.x < 0 ∨ p.position.x > 800) := by
      rintro (h | h) <;> linarith
    rw [if_neg hx]
  · rintro ⟨h0, h1⟩
    have hy : ¬ (p.position.y < 0 ∨ p.position.y > 600) := by
      rintro (h | h) <;> linarith
    rw [if_neg hy]
  · intro h
    rw [if_pos h]
  · intro h
    rw [if_pos h]

theorem updateParticle_zero_inWindow (p : Particle) (h : InWindow p) :
    updateParticle 0 p = p := by
  obtain ⟨hx0, hx1, hy0, hy1⟩ := h
  obtain ⟨hpos, hcol, hvx, hvy, _, _⟩ := updateParticle_zero p
  have h1 := hvx ⟨hx0, hx1⟩
  have h2 := hvy ⟨hy0, hy1⟩
  generalize updateParticle 0 p = q at *
  obtain ⟨qp, ⟨qvx, qvy⟩, qc⟩ := q
  obtain ⟨pp, ⟨pvx, pvy⟩, pc⟩ := p
  simp_all

/-- C3, as stated, fails: a particle at `x = 795` moving at `vx = 100` is carried to
`x = 805` with `vx = -100` by `update(1/10)`; a following `update(0)` keeps `x = 805` but,
805 being above 800, negates the velocity again to `vx = 100`, so the store changes. -/
theorem update_zero_changes_velocity :
    (update (1 / 10) (filledStore 1)).particles = [pastRightEdge]
      ∧ (update 0 (update (1 / 10) (filledStore 1))).particles
          = [{ position := ⟨805, 300⟩, velocity := ⟨100, 0⟩, color := ⟨1, 1, 1, 1⟩ }]
      ∧ (update 0 (update (1 / 10) (filledStore 1))).particles
          ≠ (update (1 / 10) (filledStore 1)).particles := by
  norm_num [update, updateLoop, updateParticle, filledStore, nearRightEdge, pastRightEdge,
    WINDOW_WIDTH, WINDOW_HEIGHT]

/-- C3, amended. `update(0)` keeps the length and order of the store and, for every
particle, its position and colour; it keeps the velocity component of every axis on which
the position lies inside the window (`0 ≤ x ≤ 800`, `0 ≤ y ≤ 600`) and negates it on an
axis where the position lies outside. Hence a store all of whose particles lie in the
window is left unchanged by `update(0)`. -/
theorem update_zero_in_window {σ : Type} (s : ParticleSystem σ) :
    List.Forall₂ ZeroStep s.particles (update 0 s).particles
      ∧ ((∀ p ∈ s.particles, InWindow p) → update 0 s = s) := by
  constructor
  · simp only [update, updateLoop_eq_map]
    rw [List.forall₂_map_right_iff]
    exact List.forall₂_same.mpr (fun p _ => updateParticle_zero p)
  · intro h
    have hmap : updateLoop 0 s.particles = s.particles := by
      rw [updateLoop_eq_map]
      conv_rhs => rw [← List.map_id s.particles]
      exact List.map_congr_left (fun p hp => updateParticle_zero_inWindow p (h p hp))
    simp only [update, hmap]

/-- The amended C3 at a concrete store of three in-window particles. -/
theorem update_zero_in_window_witness :
    (∀ p ∈ (filledStore 3).particles, InWindow p) ∧ update 0 (filledStore 3) = filledStore 3 := by
  have h : ∀ p ∈ (filledStore 3).particles, InWindow p := by
    intro p hp
    have hp1 : p = nearRightEdge := by
      simpa [filledStore] using List.eq_of_mem_replicate hp
    rw [hp1]
    norm_num [InWindow, nearRightEdge]
  exact ⟨h, (update_zero_in_window (filledStore 3)).2 h⟩

/-! ## C9: an overshoot and the step after it -/

theorem roundTiesEven_of_frac_lt (r : ℚ) (f : ℤ) (hf : (f : ℚ) ≤ r) (h : r - f < 1 / 2) :
    roundTiesEven r = f := by
  have hfl : ⌊r⌋ = f := Int.floor_eq_iff.mpr ⟨hf, by linarith⟩
  simp only [roundTiesEven, hfl, if_pos h]

theorem roundTiesEven_of_frac_gt (r : ℚ) (f : ℤ) (h : 1 / 2 < r - f) (h2 : r < f + 1) :
    roundTiesEven r = f + 1 := by
  have hfl : ⌊r⌋ = f := Int.floor_eq_iff.mpr ⟨by linarith, h2⟩
  have h1 : ¬ (r - f < 1 / 2) := by linarith
  simp only [roundTiesEven, hfl, if_neg h1, if_pos (show r - (f : ℚ) > 1 / 2 from h)]

theorem roundTiesEven_intCast (n : ℤ) : roundTiesEven (n : ℚ) = n := by
  apply roundTiesEven_of_frac_lt <;> norm_num

theorem ulpF32_eq (q : ℚ) (e : ℤ) (hq : 0 < q) (he : -126 ≤ e) (h1 : (2 : ℚ) ^ e ≤ q)
    (h2 : q < (2 : ℚ) ^ (e + 1)) : ulpF32 q = (2 : ℚ) ^ (e - 23) := by
  have hlo : e ≤ Int.log 2 q :=
    (Int.zpow_le_iff_le_log (by norm_num) hq).mp (by exact_mod_cast h1)
  have hhi : Int.log 2 q < e + 1 :=
    (Int.lt_zpow_iff_log_lt (by norm_num) hq).mp (by exact_mod_cast h2)
  have hlog : Int.log 2 q = e := by omega
  simp only [ulpF32, hlog]
  rw [max_eq_left he]

/-- Evaluation of `roundF32` at a positive `q` in the binade `[2 ^ e, 2 ^ (e + 1))`. -/
theorem roundF32_eval (q : ℚ) (e n : ℤ) (hq : 0 < q) (he : -126 ≤ e) (h1 : (2 : ℚ) ^ e ≤ q)
    (h2 : q < (2 : ℚ) ^ (e + 1)) (hn : roundTiesEven (q / (2 : ℚ) ^ (e - 23)) = n) :
    roundF32 q = (2 : ℚ) ^ (e - 23) * n := by
  have hnn : ¬ q < 0 := by linarith
  simp only [roundF32, if_neg hnn, roundAbsF32, ulpF32_eq q e hq he h1 h2, hn]

/-- A positive multiple of the spacing of its binade is a binary32 value. -/
theorem roundF32_exact (q : ℚ) (e n : ℤ) (hq : 0 < q) (he : -126 ≤ e) (h1 : (2 : ℚ) ^ e ≤ q)
    (h2 : q < (2 : ℚ) ^ (e + 1)) (hn : q = (2 : ℚ) ^ (e - 23) * n) : roundF32 q = q := by
  have hpos : (0 : ℚ) < (2 : ℚ) ^ (e - 23) := zpow_pos (by norm_num) _
  have hdiv : q / (2 : ℚ) ^ (e - 23) = (n : ℚ) := by
    rw [hn]; field_simp
  rw [roundF32_eval q e n hq he h1 h2 (by rw [hdiv]; exact roundTiesEven_intCast n)]
  exact hn.symm

/-- The literal `0.1f`: one tenth rounds up to `13421773 * 2 ^ (-27)`. -/
theorem roundF32_one_tenth : roundF32 (1 / 10) = tenthF32 := by
  rw [roundF32_eval _ (-4) 13421773 (by norm_num) (by norm_num) (by norm_num) (by norm_num)
    (roundTiesEven_of_frac_gt _ 13421772 (by norm_num) (by norm_num))]
  norm_num [tenthF32]

/-- A tie goes to the even neighbour: `2 ^ 24 + 1` rounds down to `2 ^ 24` and
`2 ^ 24 + 3` rounds up to `2 ^ 24 + 4`. -/
theorem roundF32_ties : roundF32 16777217 = 16777216 ∧ roundF32 16777219 = 16777220 := by
  have hdown : roundTiesEven (16777217 / (2 : ℚ) ^ ((24 : ℤ) - 23)) = 8388608 := by
    have hfl : ⌊(16777217 / (2 : ℚ) ^ ((24 : ℤ) - 23))⌋ = 8388608 :=
      Int.floor_eq_iff.mpr ⟨by norm_num, by norm_num⟩
    simp only [roundTiesEven, hfl]
    norm_num
  have hup : roundTiesEven (16777219 / (2 : ℚ) ^ ((24 : ℤ) - 23)) = 8388610 := by
    have hfl : ⌊(16777219 / (2 : ℚ) ^ ((24 : ℤ) - 23))⌋ = 8388609 :=
      Int.floor_eq_iff.mpr ⟨by norm_num, by norm_num⟩
    simp only [roundTiesEven, hfl]
    norm_num
  constructor
  · rw [roundF32_eval _ 24 8388608 (by norm_num) (by norm_num) (by norm_num) (by norm_num) hdown]
    norm_num
  · rw [roundF32_eval _ 24 8388610 (by norm_num) (by norm_num) (by norm_num) (by norm_num) hup]
    norm_num

theorem roundAbsF32_zero : roundAbsF32 0 = 0 := by
  simp [roundAbsF32, roundTiesEven]

theorem roundF32_zero : roundF32 0 = 0 := by
  simp [roundF32, roundAbsF32_zero]

/-- Rounding commutes with negation. -/
theorem roundF32_neg (q : ℚ) : roundF32 (-q) = -roundF32 q := by
  rcases lt_trichotomy q 0 with h | h | h
  · have hn : ¬ (-q < 0) := by linarith
    simp only [roundF32, if_pos h, if_neg hn, neg_neg]
  · subst h
    simp [roundF32_zero]
  · have h1 : -q < 0 := by linarith
    have h2 : ¬ q < 0 := by linarith
    simp only [roundF32, if_pos h1, if_neg h2, neg_neg]

theorem updateParticleWith_position_x (fl : ℚ → ℚ) (dt : ℚ) (p : Particle) :
    (updateParticleWith fl dt p).position.x = fl (p.position.x + fl (p.velocity.x * dt)) := by
  simp only [updateParticleWith]
  split_ifs <;> rfl

theorem updateParticleWith_position_y (fl : ℚ → ℚ) (dt : ℚ) (p : Particle) :
    (updateParticleWith fl dt p).position.y = fl (p.position.y + fl (p.velocity.y * dt)) := by
  simp only [updateParticleWith]
  split_ifs <;> rfl

theorem updateParticleWith_velocity_x (fl : ℚ → ℚ) (dt : ℚ) (p : Particle) :
    (updateParticleWith fl dt p).velocity.x =
      if (updateParticleWith fl dt p).position.x < 0
          ∨ (updateParticleWith fl dt p).position.x > 800 then
        fl (p.velocity.x * (-1))
      else p.velocity.x := by
  rw [updateParticleWith_position_x]
  simp only [updateParticleWith, WINDOW_WIDTH]
  push_cast
  split_ifs <;> rfl

theorem updateParticleWith_velocity_y (fl : ℚ → ℚ) (dt : ℚ) (p : Particle) :
    (updateParticleWith fl dt p).velocity.y =
      if (updateParticleWith fl dt p).position.y < 0
          ∨ (updateParticleWith fl dt p).position.y > 600 then
        fl (p.velocity.y * (-1))
      else p.velocity.y := by
  rw [updateParticleWith_position_y]
  simp only [updateParticleWith, WINDOW_HEIGHT]
  push_cast
  split_ifs <;> rfl

theorem updateParticleF32_position_x (dt : ℚ) (p : Particle) :
    (updateParticleF32 dt p).position.x
      = roundF32 (p.position.x + roundF32 (p.velocity.x * dt)) :=
  updateParticleWith_position_x roundF32 dt p

theorem updateParticleF32_position_y (dt : ℚ) (p : Particle) :
    (updateParticleF32 dt p).position.y
      = roundF32 (p.position.y + roundF32 (p.velocity.y * dt)) :=
  updateParticleWith_position_y roundF32 dt p

theorem updateParticleF32_velocity_x (dt : ℚ) (p : Particle) :
    (updateParticleF32 dt p).velocity.x =
      if (updateParticleF32 dt p).position.x < 0 ∨ (updateParticleF32 dt p).position.x > 800 then
        roundF32 (p.velocity.x * (-1))
      else p.velocity.x :=
  updateParticleWith_velocity_x roundF32 dt p

theorem updateParticleF32_velocity_y (dt : ℚ) (p : Particle) :
    (updateParticleF32 dt p).velocity.y =
      if (updateParticleF32 dt p).position.y < 0 ∨ (updateParticleF32 dt p).position.y > 600 then
        roundF32 (p.velocity.y * (-1))
      else p.velocity.y :=
  updateParticleWith_velocity_y roundF32 dt p

theorem updateLoopWith_eq_map (fl : ℚ → ℚ) (dt : ℚ) (ps : List Particle) :
    updateLoopWith fl dt ps = ps.map (updateParticleWith fl dt) := by
  induction ps with
  | nil => rfl
  | cons p ps ih => simp [updateLoopWith, ih]

theorem updateF32_particles {σ : Type} (dt : ℚ) (s : ParticleSystem σ) :
    (updateF32 dt s).particles = s.particles.map (updateParticleF32 dt) := by
  simp only [updateF32, updateLoopWith_eq_map]
  rfl

/-- With no rounding at all the rounded step is the exact one. -/
theorem updateParticleWith_id (dt : ℚ) (p : Particle) :
    updateParticleWith id dt p = updateParticle dt p := by
  rfl

/-- One axis of the overshoot property, on the numbers involved: the coordinate `x` and
velocity `v` before the first step, for a window bound `w`. -/
theorem overshoot_axis (dt x v w : ℚ) (hx : roundF32 x = x) (hv : roundF32 v = v)
    (hsum : roundF32 (x + roundF32 (v * dt)) = x + roundF32 (v * dt))
    (h0 : 0 ≤ x) (h1 : x ≤ w) :
    roundF32 (v * (-1)) = -v
      ∧ roundF32 (roundF32 (x + roundF32 (v * dt)) + roundF32 (-v * dt)) = x
      ∧ ¬ (x < 0 ∨ x > w) := by
  have hneg : roundF32 (v * (-1)) = -v := by
    rw [mul_neg_one, roundF32_neg, hv]
  have hback : roundF32 (-v * dt) = -roundF32 (v * dt) := by
    rw [neg_mul, roundF32_neg]
  refine ⟨hneg, ?_, ?_⟩
  · rw [hback, hsum]
    have : x + roundF32 (v * dt) + -roundF32 (v * dt) = x := by ring
    rw [this, hx]
  · rintro (h | h) <;> linarith

/-- C9, as stated, fails on the program, which rounds every product and sum to binary32.
The store holds one particle with `x = 800` (inside `[0, 800]`) and
`vx = 56 + 5 * 2 ^ (-18)`, and `dt = 4`; all three are binary32 values. The first
`update(4)` computes `800 + 224.0000763 = 1024.0000763`, rounded to `1024 + 2 ^ (-13)`,
which is out of bounds, and negates `vx`. The second `update(4)` computes
`1024 + 2 ^ (-13) - 224.0000763 = 800 + 3 * 2 ^ (-16)`, rounded to `800 + 2 ^ (-14)`: not the
original 800, still out of bounds, so `vx` is negated again, back to its original. -/
theorem overshoot_not_undone_in_binary32 :
    (IsF32 onRightEdge.position.x ∧ IsF32 onRightEdge.velocity.x ∧ IsF32 4)
      ∧ (0 ≤ onRightEdge.position.x ∧ onRightEdge.position.x ≤ 800)
      ∧ (updateF32 4 (singleStore onRightEdge)).particles.map
            (fun q => (q.position.x, q.velocity.x))
          = [(1024 + 1 / 8192, -(56 + 5 / 262144))]
      ∧ (1024 + 1 / 8192 : ℚ) > 800
      ∧ (updateF32 4 (updateF32 4 (singleStore onRightEdge))).particles.map
            (fun q => (q.position.x, q.velocity.x))
          = [(800 + 1 / 16384, 56 + 5 / 262144)]
      ∧ (800 + 1 / 16384 : ℚ) ≠ onRightEdge.position.x
      ∧ (56 + 5 / 262144 : ℚ) ≠ -onRightEdge.velocity.x := by
  have hv : roundF32 (56 + 5 / 262144) = 56 + 5 / 262144 :=
    roundF32_exact _ 5 14680069 (by norm_num) (by norm_num) (by norm_num) (by norm_num)
      (by norm_num)
  have hx : roundF32 800 = 800 :=
    roundF32_exact _ 9 13107200 (by norm_num) (by norm_num) (by norm_num) (by norm_num)
      (by norm_num)
  have hdt : roundF32 4 = 4 :=
    roundF32_exact _ 2 8388608 (by norm_num) (by norm_num) (by norm_num) (by norm_num)
      (by norm_num)
  have hprod : roundF32 ((56 + 5 / 262144) * 4) = 224 + 5 / 65536 :=
    (roundF32_exact _ 7 14680069 (by norm_num) (by norm_num) (by norm_num) (by norm_num)
      (by norm_num)).trans (by norm_num)
  have hsum1 : roundF32 (800 + (224 + 5 / 65536)) = 1024 + 1 / 8192 := by
    rw [roundF32_eval _ 10 8388609 (by norm_num) (by norm_num) (by norm_num) (by norm_num)
      (roundTiesEven_of_frac_gt _ 8388608 (by norm_num) (by norm_num))]
    norm_num
  have hflip : roundF32 ((56 + 5 / 262144) * (-1)) = -(56 + 5 / 262144) := by
    rw [mul_neg_one, roundF32_neg, hv]
  have hprod2 : roundF32 (-(56 + 5 / 262144) * 4) = -(224 + 5 / 65536) := by
    rw [neg_mul, roundF32_neg, hprod]
  have hsum2 : roundF32 (1024 + 1 / 8192 + -(224 + 5 / 65536)) = 800 + 1 / 16384 := by
    rw [roundF32_eval _ 9 13107201 (by norm_num) (by norm_num) (by norm_num) (by norm_num)
      (roundTiesEven_of_frac_gt _ 13107200 (by norm_num) (by norm_num))]
    norm_num
  have hstep1 : (updateParticleF32 4 onRightEdge).position.x = 1024 + 1 / 8192 := by
    rw [updateParticleF32_position_x]
    simp only [onRightEdge]
    rw [hprod, hsum1]
  have hvel1 : (updateParticleF32 4 onRightEdge).velocity.x = -(56 + 5 / 262144) := by
    rw [updateParticleF32_velocity_x, hstep1, if_pos (Or.inr (by norm_num))]
    simp only [onRightEdge]
    exact hflip
  have hstep2 : (updateParticleF32 4 (updateParticleF32 4 onRightEdge)).position.x
      = 800 + 1 / 16384 := by
    rw [updateParticleF32_position_x, hstep1, hvel1, hprod2, hsum2]
  have hvel2 : (updateParticleF32 4 (updateParticleF32 4 onRightEdge)).velocity.x
      = 56 + 5 / 262144 := by
    rw [updateParticleF32_velocity_x, hstep2, if_pos (Or.inr (by norm_num)), hvel1,
      mul_neg_one, neg_neg]
    exact hv
  refine ⟨⟨?_, ?_, ?_⟩, ?_, ?_, by norm_num, ?_, ?_, ?_⟩
  · exact ⟨by simpa [onRightEdge] using hx, by norm_num [onRightEdge, abs_lt]⟩
  · exact ⟨by simpa [onRightEdge] using hv, by norm_num [onRightEdge, abs_lt]⟩
  · exact ⟨hdt, by norm_num [abs_lt]⟩
  · norm_num [onRightEdge]
  · rw [updateF32_particles]
    simp only [singleStore, List.map, hstep1, hvel1]
  · rw [updateF32_particles, updateF32_particles]
    simp only [singleStore, List.map, hstep2, hvel2]
  · norm_num [onRightEdge]
  · norm_num [onRightEdge]

/-- C9, amended. In binary32 arithmetic `update(dt)` acts on each particle by the loop
body, so two calls act by the body applied twice. For a particle whose coordinate on an
axis, velocity component on that axis and `dt` are binary32 values, with the coordinate
inside the window bound: if the rounded product `velocity * dt` does not overflow (its
magnitude is below `2 ^ 128`) and the sum `position + velocity * dt` of the first step is
itself a finite binary32 value (no rounding in that sum, as in `795 + 10 = 805`), and the
first `update(dt)` moves the coordinate out of the window on that axis, then that step
negates the velocity component, and a second `update(dt)` returns the coordinate to its
original value and leaves the velocity component at the negation of the original. The
conditions on `dt` and on overflow keep every value of the computation a finite binary32
value, the range on which `roundF32` is the rounding of the machine. -/
theorem overshoot_returns_when_sum_exact {σ : Type} (dt : ℚ) (s : ParticleSystem σ)
    (p : Particle) :
    ((updateF32 dt s).particles = s.particles.map (updateParticleF32 dt)
      ∧ (updateF32 dt (updateF32 dt s)).particles
          = s.particles.map (fun q => updateParticleF32 dt (updateParticleF32 dt q)))
    ∧ (IsF32 p.position.x → IsF32 p.velocity.x → IsF32 dt →
        |roundF32 (p.velocity.x * dt)| < 2 ^ 128 →
        IsF32 (p.position.x + roundF32 (p.velocity.x * dt)) →
        0 ≤ p.position.x → p.position.x ≤ 800 →
        ((updateParticleF32 dt p).position.x < 0 ∨ (updateParticleF32 dt p).position.x > 800) →
          (updateParticleF32 dt p).velocity.x = -p.velocity.x
            ∧ (updateParticleF32 dt (updateParticleF32 dt p)).position.x = p.position.x
            ∧ (updateParticleF32 dt (updateParticleF32 dt p)).velocity.x = -p.velocity.x)
    ∧ (IsF32 p.position.y → IsF32 p.velocity.y → IsF32 dt →
        |roundF32 (p.velocity.y * dt)| < 2 ^ 128 →
        IsF32 (p.position.y + roundF32 (p.velocity.y * dt)) →
        0 ≤ p.position.y → p.position.y ≤ 600 →
        ((updateParticleF32 dt p).position.y < 0 ∨ (updateParticleF32 dt p).position.y > 600) →
          (updateParticleF32 dt p).velocity.y = -p.velocity.y
            ∧ (updateParticleF32 dt (updateParticleF32 dt p)).position.y = p.position.y
            ∧ (updateParticleF32 dt (updateParticleF32 dt p)).velocity.y = -p.velocity.y) := by
  refine ⟨⟨updateF32_particles dt s, ?_⟩, ?_, ?_⟩
  · rw [updateF32_particles, updateF32_particles, List.map_map]
    rfl
  · intro hx hv _ _ hsum h0 h1 hout
    obtain ⟨hneg, hback, hin⟩ :=
      overshoot_axis dt p.position.x p.velocity.x 800 hx.1 hv.1 hsum.1 h0 h1
    have hv1 : (updateParticleF32 dt p).velocity.x = -p.velocity.x := by
      rw [updateParticleF32_velocity_x, if_pos hout, hneg]
    have hx2 : (updateParticleF32 dt (updateParticleF32 dt p)).position.x = p.position.x := by
      rw [updateParticleF32_position_x, hv1, updateParticleF32_position_x]
      exact hback
    refine ⟨hv1, hx2, ?_⟩
    rw [updateParticleF32_velocity_x, hx2, if_neg hin, hv1]
  · intro hx hv _ _ hsum h0 h1 hout
    obtain ⟨hneg, hback, hin⟩ :=
      overshoot_axis dt p.position.y p.velocity.y 600 hx.1 hv.1 hsum.1 h0 h1
    have hv1 : (updateParticleF32 dt p).velocity.y = -p.velocity.y := by
      rw [updateParticleF32_velocity_y, if_pos hout, hneg]
    have hx2 : (updateParticleF32 dt (updateParticleF32 dt p)).position.y = p.position.y := by
      rw [updateParticleF32_position_y, hv1, updateParticleF32_position_y]
      exact hback
    refine ⟨hv1, hx2, ?_⟩
    rw [updateParticleF32_velocity_y, hx2, if_neg hin, hv1]

/-- The amended C9 at `(795, 595)` with velocity `(100, 100)` and `dt = 0.1f`: the product
`100 * 0.1f` rounds to 10, the sums `795 + 10` and `595 + 10` are exact, both axes overshoot
(to 805 and 605) and come back to 795 and 595 with velocity `(-100, -100)`. -/
theorem overshoot_returns_when_sum_exact_witness :
    (IsF32 795 ∧ IsF32 595 ∧ IsF32 100 ∧ IsF32 tenthF32 ∧ roundF32 (100 * tenthF32) = 10
        ∧ IsF32 805 ∧ IsF32 605)
      ∧ ((updateParticleF32 tenthF32 nearCorner).position.x = 805
        ∧ (updateParticleF32 tenthF32 nearCorner).velocity.x = -100
        ∧ (updateParticleF32 tenthF32 (updateParticleF32 tenthF32 nearCorner)).position.x = 795
        ∧ (updateParticleF32 tenthF32 (updateParticleF32 tenthF32 nearCorner)).velocity.x
            = -100)
      ∧ ((updateParticleF32 tenthF32 nearCorner).position.y = 605
        ∧ (updateParticleF32 tenthF32 nearCorner).velocity.y = -100
        ∧ (updateParticleF32 tenthF32 (updateParticleF32 tenthF32 nearCorner)).position.y = 595
        ∧ (updateParticleF32 tenthF32 (updateParticleF32 tenthF32 nearCorner)).velocity.y
            = -100) := by
  have h795 : IsF32 795 :=
    ⟨roundF32_exact _ 9 13025280 (by norm_num) (by norm_num) (by norm_num) (by norm_num)
      (by norm_num), by norm_num [abs_lt]⟩
  have h595 : IsF32 595 :=
    ⟨roundF32_exact _ 9 9748480 (by norm_num) (by norm_num) (by norm_num) (by norm_num)
      (by norm_num), by norm_num [abs_lt]⟩
  have h100 : IsF32 100 :=
    ⟨roundF32_exact _ 6 13107200 (by norm_num) (by norm_num) (by norm_num) (by norm_num)
      (by norm_num), by norm_num [abs_lt]⟩
  have hdt : IsF32 tenthF32 :=
    ⟨roundF32_exact _ (-4) 13421773 (by norm_num [tenthF32]) (by norm_num)
      (by norm_num [tenthF32]) (by norm_num [tenthF32]) (by norm_num [tenthF32]),
      by norm_num [tenthF32, abs_lt]⟩
  have hprod : roundF32 (100 * tenthF32) = 10 := by
    rw [roundF32_eval _ 3 10485760 (by norm_num [tenthF32]) (by norm_num)
      (by norm_num [tenthF32]) (by norm_num [tenthF32])
      (roundTiesEven_of_frac_lt _ 10485760 (by norm_num [tenthF32]) (by norm_num [tenthF32]))]
    norm_num
  have h805 : IsF32 805 :=
    ⟨roundF32_exact _ 9 13189120 (by norm_num) (by norm_num) (by norm_num) (by norm_num)
      (by norm_num), by norm_num [abs_lt]⟩
  have h605 : IsF32 605 :=
    ⟨roundF32_exact _ 9 9912320 (by norm_num) (by norm_num) (by norm_num) (by norm_num)
      (by norm_num), by norm_num [abs_lt]⟩
  have hx1 : (updateParticleF32 tenthF32 nearCorner).position.x = 805 := by
    rw [updateParticleF32_position_x]
    simp only [nearCorner]
    rw [hprod]
    norm_num
    exact h805.1
  have hy1 : (updateParticleF32 tenthF32 nearCorner).position.y = 605 := by
    rw [updateParticleF32_position_y]
    simp only [nearCorner]
    rw [hprod]
    norm_num
    exact h605.1
  have hsx : IsF32 (nearCorner.position.x + roundF32 (nearCorner.velocity.x * tenthF32)) := by
    simp only [nearCorner]
    rw [hprod]
    norm_num
    exact h805
  have hsy : IsF32 (nearCorner.position.y + roundF32 (nearCorner.velocity.y * tenthF32)) := by
    simp only [nearCorner]
    rw [hprod]
    norm_num
    exact h605
  have hpx : |roundF32 (nearCorner.velocity.x * tenthF32)| < 2 ^ 128 := by
    simp only [nearCorner]
    rw [hprod]
    norm_num [abs_lt]
  have hpy : |roundF32 (nearCorner.velocity.y * tenthF32)| < 2 ^ 128 := by
    simp only [nearCorner]
    rw [hprod]
    norm_num [abs_lt]
  have hX := (overshoot_returns_when_sum_exact tenthF32 (singleStore nearCorner) nearCorner).2.1
    h795 h100 hdt hpx hsx (by norm_num [nearCorner]) (by norm_num [nearCorner])
    (Or.inr (by rw [hx1]; norm_num))
  have hY := (overshoot_returns_when_sum_exact tenthF32 (singleStore nearCorner) nearCorner).2.2
    h595 h100 hdt hpy hsy (by norm_num [nearCorner]) (by norm_num [nearCorner])
    (Or.inr (by rw [hy1]; norm_num))
  refine ⟨⟨h795, h595, h100, hdt, hprod, h805, h605⟩, ⟨hx1, ?_, ?_, ?_⟩, ⟨hy1, ?_, ?_, ?_⟩⟩
  · simpa [nearCorner] using hX.1
  · simpa [nearCorner] using hX.2.1
  · simpa [nearCorner] using hX.2.2
  · simpa [nearCorner] using hY.1
  · simpa [nearCorner] using hY.2.1
  · simpa [nearCorner] using hY.2.2

/-! ## C8: ranges of emitted particles -/

theorem drawParticle_ranges {σ : Type} (dist : Dist σ)
    (hdist : ∀ (a b : ℚ) (rng : σ), a ≤ b → a ≤ (dist a b rng).1 ∧ (dist a b rng).1 ≤ b)
    (rng : σ) : EmittedRanges (drawParticle dist rng).1 := by
  have hw : (0 : ℚ) ≤ ((WINDOW_WIDTH : Int) : ℚ) := by norm_num [WINDOW_WIDTH]
  have hw8 : ((WINDOW_WIDTH : Int) : ℚ) = 800 := by norm_num [WINDOW_WIDTH]
  have hv : (-100 : ℚ) ≤ 100 := by norm_num
  have hc : (0 : ℚ) ≤ 1 := by norm_num
  simp only [EmittedRanges, drawParticle]
  refine ⟨hdist 0 1 _ hc, hdist 0 1 _ hc, hdist 0 1 _ hc, trivial, hdist (-100) 100 _ hv,
    hdist (-100) 100 _ hv, ?_, ?_⟩
  · have := hdist 0 WINDOW_WIDTH rng hw
    rw [hw8] at this
    exact this
  · have := hdist 0 WINDOW_WIDTH (dist 0 WINDOW_WIDTH rng).2 hw
    rw [hw8] at this
    exact this

theorem lcgDist_in_range (a b : ℚ) (rng : Nat) (hab : a ≤ b) :
    a ≤ (lcgDist a b rng).1 ∧ (lcgDist a b rng).1 ≤ b := by
  simp only [lcgDist]
  have ht0 : (0 : ℚ) ≤ ((lcgNext rng % 1001 : Nat) : ℚ) := Nat.cast_nonneg _
  have ht1 : ((lcgNext rng % 1001 : Nat) : ℚ) ≤ 1000 := by
    have : lcgNext rng % 1001 ≤ 1000 := by omega
    exact_mod_cast this
  have hba : 0 ≤ b - a := sub_nonneg.mpr hab
  constructor
  · have : 0 ≤ (b - a) * ((lcgNext rng % 1001 : Nat) : ℚ) / 1000 :=
      div_nonneg (mul_nonneg hba ht0) (by norm_num)
    linarith
  · have : (b - a) * ((lcgNext rng % 1001 : Nat) : ℚ) / 1000 ≤ b - a := by
      rw [div_le_iff₀ (by norm_num)]
      exact mul_le_mul_of_nonneg_left ht1 hba
    linarith

/-- C8. If every draw from a distribution over `[a, b]` with `a ≤ b` returns a value in
`[a, b]`, then every particle appended by `addParticles` (those after the old store) has
red, green and blue in `[0, 1]`, alpha exactly 1, both velocity components in
`[-100, 100]`, and both `position.x` and `position.y` in `[0, 800]`, the window width
being used for both axes. -/
theorem emitted_ranges {σ : Type} (dist : Dist σ)
    (hdist : ∀ (a b : ℚ) (rng : σ), a ≤ b → a ≤ (dist a b rng).1 ∧ (dist a b rng).1 ≤ b)
    (count : Int) (s : ParticleSystem σ) :
    ∀ p ∈ (addParticles dist count s).particles.drop s.particles.length,
      (0 ≤ p.color.x ∧ p.color.x ≤ 1) ∧ (0 ≤ p.color.y ∧ p.color.y ≤ 1)
        ∧ (0 ≤ p.color.z ∧ p.color.z ≤ 1) ∧ p.color.w = 1
        ∧ (-100 ≤ p.velocity.x ∧ p.velocity.x ≤ 100)
        ∧ (-100 ≤ p.velocity.y ∧ p.velocity.y ≤ 100)
        ∧ (0 ≤ p.position.x ∧ p.position.x ≤ WINDOW_WIDTH ∧ WINDOW_WIDTH = 800)
        ∧ (0 ≤ p.position.y ∧ p.position.y ≤ WINDOW_WIDTH) := by
  obtain ⟨added, hadd, hall⟩ :=
    addLoop_appended dist EmittedRanges (drawParticle_ranges dist hdist) count.toNat s
  intro p hp
  unfold addParticles at hp
  rw [hadd, List.drop_left] at hp
  have h := hall p hp
  simp only [EmittedRanges] at h
  have hw8 : ((WINDOW_WIDTH : Int) : ℚ) = 800 := by norm_num [WINDOW_WIDTH]
  rw [hw8]
  exact ⟨h.1, h.2.1, h.2.2.1, h.2.2.2.1, h.2.2.2.2.1, h.2.2.2.2.2.1,
    ⟨h.2.2.2.2.2.2.1.1, h.2.2.2.2.2.2.1.2, rfl⟩, h.2.2.2.2.2.2.2⟩

/-- C8 with the example generator: it meets the assumption on draws, and the three
particles emitted into an empty store are in range. -/
theorem emitted_ranges_witness :
    (∀ (a b : ℚ) (rng : Nat), a ≤ b → a ≤ (lcgDist a b rng).1 ∧ (lcgDist a b rng).1 ≤ b)
      ∧ (addParticles lcgDist 3 (ParticleSystem.init 42)).particles.length = 3
      ∧ ∀ p ∈ (addParticles lcgDist 3 (ParticleSystem.init 42)).particles.drop
            (ParticleSystem.init 42).particles.length,
          (0 ≤ p.color.x ∧ p.color.x ≤ 1) ∧ (0 ≤ p.color.y ∧ p.color.y ≤ 1)
            ∧ (0 ≤ p.color.z ∧ p.color.z ≤ 1) ∧ p.color.w = 1
            ∧ (-100 ≤ p.velocity.x ∧ p.velocity.x ≤ 100)
            ∧ (-100 ≤ p.velocity.y ∧ p.velocity.y ≤ 100)
            ∧ (0 ≤ p.position.x ∧ p.position.x ≤ WINDOW_WIDTH ∧ WINDOW_WIDTH = 800)
            ∧ (0 ≤ p.position.y ∧ p.position.y ≤ WINDOW_WIDTH) :=
  ⟨lcgDist_in_range, by decide,
    emitted_ranges lcgDist lcgDist_in_range 3 (ParticleSystem.init 42)⟩

/-! ## C10: the upload fits the vertex buffer -/

theorem uploadedBytes_draw {σ : Type} (s : ParticleSystem σ) :
    uploadedBytes (draw s) = sizeofParticle * s.particles.length := by
  cases hps : s.particles with
  | nil => simp [draw, hps, uploadedBytes]
  | cons p ps => simp [draw, hps, uploadedBytes]

/-- C10. With a 32-byte particle record: an empty store makes `draw` only clear and
present (no copy, no draw call); a non-empty store makes it copy the whole store,
`32 * len` bytes, and issue one `Draw` whose vertex count is `len` reduced modulo `2^32`;
the bytes uploaded are always exactly `32 * len`. The buffer created by
`createVertexBuffer` has `ByteWidth = 32 * MAX_PARTICLES = 160,000,000 < 2^32`, so the
32-bit field does not wrap; and when `len ≤ MAX_PARTICLES` the upload is at most
`ByteWidth` and the 32-bit vertex count equals `len`. -/
theorem upload_fits_buffer {σ : Type} (s : ParticleSystem σ) :
    (s.particles = [] →
        draw s = [GpuCall.ClearRenderTargetView 0 0 0 1, GpuCall.Present 1 0])
      ∧ (s.particles ≠ [] →
        draw s =
          [ GpuCall.ClearRenderTargetView 0 0 0 1,
            GpuCall.Map,
            GpuCall.memcpy s.particles (32 * s.particles.length),
            GpuCall.Unmap,
            GpuCall.IASetVertexBuffers 32 0,
            GpuCall.IASetPrimitiveTopologyPointList,
            GpuCall.IASetInputLayout,
            GpuCall.VSSetShader,
            GpuCall.PSSetShader,
            GpuCall.Draw (s.particles.length % 2 ^ 32) 0,
            GpuCall.Present 1 0 ])
      ∧ uploadedBytes (draw s) = 32 * s.particles.length
      ∧ (createVertexBuffer.ByteWidth : Int) = 32 * MAX_PARTICLES
      ∧ createVertexBuffer.ByteWidth = 160000000
      ∧ sizeofParticle * MAX_PARTICLES.toNat < 2 ^ 32
      ∧ ((s.particles.length : Int) ≤ MAX_PARTICLES →
          uploadedBytes (draw s) ≤ createVertexBuffer.ByteWidth
            ∧ toUINT s.particles.length = s.particles.length) := by
  have hsize : sizeofParticle = 32 := rfl
  have hbw : createVertexBuffer.ByteWidth = 160000000 := by decide
  refine ⟨?_, ?_, ?_, ?_, hbw, by decide, ?_⟩
  · intro h
    simp [draw, h]
  · intro h
    have hne : s.particles.isEmpty = false := by
      cases hps : s.particles with
      | nil => exact absurd hps h
      | cons p ps => rfl
    simp [draw, hne, toUINT, hsize]
  · rw [uploadedBytes_draw, hsize]
  · rw [hbw]; decide
  · intro h
    rw [uploadedBytes_draw, hsize, hbw]
    have hmax : MAX_PARTICLES = 5000000 := rfl
    rw [hmax] at h
    unfold toUINT
    constructor
    · omega
    · apply Nat.mod_eq_of_lt
      omega

/-- C10 at a concrete store of three particles: 96 bytes are copied and 3 vertices
drawn. -/
theorem upload_fits_buffer_witness :
    (filledStore 3).particles ≠ []
      ∧ ((filledStore 3).particles.length : Int) ≤ MAX_PARTICLES
      ∧ draw (filledStore 3) =
          [ GpuCall.ClearRenderTargetView 0 0 0 1,
            GpuCall.Map,
            GpuCall.memcpy (filledStore 3).particles (32 * (filledStore 3).particles.length),
            GpuCall.Unmap,
            GpuCall.IASetVertexBuffers 32 0,
            GpuCall.IASetPrimitiveTopologyPointList,
            GpuCall.IASetInputLayout,
            GpuCall.VSSetShader,
            GpuCall.PSSetShader,
            GpuCall.Draw ((filledStore 3).particles.length % 2 ^ 32) 0,
            GpuCall.Present 1 0 ]
      ∧ uploadedBytes (draw (filledStore 3)) ≤ createVertexBuffer.ByteWidth
      ∧ toUINT (filledStore 3).particles.length = (filledStore 3).particles.length := by
  have hne : (filledStore 3).particles ≠ [] := by simp [filledStore]
  have hle : ((filledStore 3).particles.length : Int) ≤ MAX_PARTICLES := by
    rw [filledStore_length]; decide
  have h := upload_fits_buffer (filledStore 3)
  exact ⟨hne, hle, h.2.1 hne, h.2.2.2.2.2.2 hle⟩

end ParticleTest
